import Mathlib

/-!
Verification development for the `echoes` backend translation service.

The definitions below are a shallow embedding of the Python sources:
- `src/echoes-be/services/echoes_service.py` (`EchoesService`): dot-path
  lookup (`_get_nested_value`), interpolation (`_interpolate`), plural-form
  selection (`_get_plural_form`), `translate`, `translate_plural`;
- `src/echoes-be/registry.py` (`TranslationRegistry`): module registration,
  the dirty-flag merged cache (`_rebuild_cache`), `get_translations`,
  `get_all_translations`.

Python dictionaries are modelled as association lists whose lookup takes the
first matching key; `dict.update` / dict assignment is modelled by `dset`
(replace the first binding, else append), which preserves Python's
insertion-order iteration semantics for dictionaries with unique keys.
-/

namespace Echoes

/-- First-match association-list lookup; models `d.get(k)` / `d[k]` on a
Python dict represented as a list of key/value pairs. -/
def alookup {α : Type} (k : String) : List (String × α) → Option α
  | [] => none
  | (k0, v0) :: t => if k0 = k then some v0 else alookup k t

/-- Models Python dict assignment `d[k] = v`: replace the first binding of
`k` if present, otherwise append the new binding (insertion order). -/
def dset {α : Type} : List (String × α) → String → α → List (String × α)
  | [], k, v => [(k, v)]
  | (k0, v0) :: t, k, v => if k0 = k then (k, v) :: t else (k0, v0) :: dset t k v

/-- Models Python `cur.update(ts)`: assign every binding of `ts` into `cur`,
in iteration order. -/
def dUpdate {α : Type} (cur ts : List (String × α)) : List (String × α) :=
  ts.foldl (fun acc p => dset acc p.1 p.2) cur

/-- JSON-like translation trees: the values stored per locale in
`EchoesService._translations`. Leaves that are not strings (objects, numbers,
arrays, null) are never valid translation values. -/
inductive Json where
  | str (s : String)
  | obj (fields : List (String × Json))
  | num (n : Int)
  | arr (elems : List Json)
  | null

/-- Split a character list at every occurrence of `sep`; models Python
`s.split(sep)` for a one-character separator (always returns at least one
piece; empty pieces are kept). -/
def splitChars (sep : Char) : List Char → List (List Char)
  | [] => [[]]
  | c :: cs =>
    let r := splitChars sep cs
    if c = sep then [] :: r
    else
      match r with
      | h :: t => (c :: h) :: t
      | [] => [[c]]

/-- Models `key.split(".")` from `_get_nested_value`. -/
def splitOnDot (s : String) : List String :=
  (splitChars '.' s.data).map String.mk

/-- Models `locale.split("-")[0] if "-" in locale else locale` from
`_get_plural_form`. -/
def baseLocale (s : String) : String :=
  if s.data.contains '-' then (((splitChars '-' s.data).map String.mk).headD s) else s

/-- The descent loop of `_get_nested_value`: for each segment, step into the
value when it is a dict containing the segment, else fail. -/
def getNestedLoop : Json → List String → Option Json
  | d, [] => some d
  | Json.obj fs, seg :: rest =>
    (match alookup seg fs with
     | some w => getNestedLoop w rest
     | none => none)
  | _, _ :: _ => none

/-- The final `return value if isinstance(value, str) else None` of
`_get_nested_value`. -/
def strLeaf : Option Json → Option String
  | some (Json.str s) => some s
  | _ => none

/-- Models `EchoesService._get_nested_value`: dot-path lookup returning a
string leaf, or `none` for any miss or non-string terminal. -/
def getNestedValue (data : Json) (key : String) : Option String :=
  strLeaf (getNestedLoop data (splitOnDot key))

/-- Interpolation parameters. A Python parameter value is observable in
`_interpolate` only through `str(value)` and an `is not None` test, so a
value is modelled as `none` (Python `None`) or `some s` (its `str(...)`
form). -/
abbrev Params := List (String × Option String)

/-- Models `params.get(param_name)` followed by the `is not None` test in
`replace_param`: a key that is absent and a key mapped to Python `None`
are indistinguishable, both yield `none`. -/
def pyGet (params : Params) (name : String) : Option String :=
  match alookup name params with
  | some (some v) => some v
  | _ => none

/-- Word characters of the regex `\{(\w+)\}` (ASCII letters, digits and
underscore). -/
def isWordChar (c : Char) : Bool :=
  c.isAlphanum || c = '_'

/-- Scanner for `re.sub(r"\{(\w+)\}", replace_param, template)`.
With `st = none` it is scanning for `{`; with `st = some nm` it is inside a
candidate placeholder, `nm` holding the reversed name read so far. A matched
placeholder is replaced by `pyGet params name` when that is not `none`, else
emitted verbatim; scanning resumes after the match (a replacement is never
rescanned). A failed candidate is emitted and the offending character is
re-examined, matching the regex engine's restart at the next position (name
characters are word characters, so no match can start inside them). -/
def interpStep (params : Params) : Option (List Char) → List Char → List Char
  | none, [] => []
  | some nm, [] => '{' :: nm.reverse
  | none, c :: cs =>
    if c = '{' then interpStep params (some []) cs
    else c :: interpStep params none cs
  | some nm, c :: cs =>
    if c = '}' then
      if nm = [] then '{' :: '}' :: interpStep params none cs
      else
        match pyGet params (String.mk nm.reverse) with
        | some v => v.data ++ interpStep params none cs
        | none => '{' :: (nm.reverse ++ ('}' :: interpStep params none cs))
    else if isWordChar c then interpStep params (some (c :: nm)) cs
    else if c = '{' then ('{' :: nm.reverse) ++ interpStep params (some []) cs
    else ('{' :: nm.reverse) ++ (c :: interpStep params none cs)

/-- Models `EchoesService._interpolate`. -/
def interpolate (template : String) (params : Params) : String :=
  String.mk (interpStep params none template.data)

/-- Removing a parameter entirely, for comparison with a `None`-valued one
(claim C10). -/
def eraseParam (name : String) (params : Params) : Params :=
  params.filter (fun p => p.1 != name)

/-- Models `EchoesService._get_plural_form`, translated branch by branch:
the generic `count == 0` check runs before every per-locale branch. -/
def getPluralForm (count : Int) (locale : String) : String :=
  let base := baseLocale locale
  if count = 0 then "zero"
  else if base = "fr" then
    if count = 0 ∨ count = 1 then "one" else "other"
  else if base = "ru" then
    let m10 := count % 10
    let m100 := count % 100
    if m10 = 1 ∧ m100 ≠ 11 then "one"
    else if 2 ≤ m10 ∧ m10 ≤ 4 ∧ ¬(12 ≤ m100 ∧ m100 ≤ 14) then "few"
    else "many"
  else if base = "ar" then
    if count = 0 then "zero"
    else if count = 1 then "one"
    else if count = 2 then "two"
    else if 3 ≤ count % 100 ∧ count % 100 ≤ 10 then "few"
    else if 11 ≤ count % 100 then "many"
    else "other"
  else if count = 1 then "one" else "other"

/-- The service's `_translations` mapping: locale code to translation tree.
Filesystem loading (`load_translations`) is the out-of-scope I/O wrapper;
the store is taken as given. -/
abbrev Store := List (String × Json)

/-- Models `self._translations.get(locale, {})`. -/
def treeOf (store : Store) (locale : String) : Json :=
  (alookup locale store).getD (Json.obj [])

/-- The locale-then-default resolution of `translate` (lines 162-167). -/
def resolveValue (store : Store) (dflt locale key : String) : Option String :=
  match getNestedValue (treeOf store locale) key with
  | some v => some v
  | none => getNestedValue (treeOf store dflt) key

/-- Models `EchoesService.translate`: resolve, return the bracket marker on
a miss (before any interpolation), interpolate only when `params` is truthy.
Total: no exception path exists. -/
def translate (store : Store) (dflt key locale : String) (params : Params) : String :=
  match resolveValue store dflt locale key with
  | none => "[" ++ key ++ "]"
  | some v => if params.isEmpty then v else interpolate v params

/-- Models `str(count)` for the injected count. -/
def intStr (i : Int) : String := toString i

/-- Models `{"count": count, **(params or {})}`: in a Python dict literal
the spread entries overwrite the earlier `"count"` entry, so with
first-match lookup the explicit `params` come first and the injected count
last. -/
def mkAllParams (count : Int) (params : Params) : Params :=
  params ++ [("count", some (intStr count))]

/-- Head test used by `result.startswith("[")`. -/
def headIsLBrack : List Char → Bool
  | [] => false
  | c :: _ => c == '['

/-- Models `result.startswith("[")`. -/
def startsWithLBrack (s : String) : Bool :=
  headIsLBrack s.data

/-- Models `EchoesService.translate_plural`: select the plural form,
translate the derived key, and on a result starting with `"["` (when the
form was not already `"other"`) retry once with the `.other` key. -/
def translate_plural (store : Store) (dflt key : String) (count : Int)
    (locale : String) (params : Params) : String :=
  let pform := getPluralForm count locale
  let pluralKey := key ++ ("." ++ pform)
  let allParams := mkAllParams count params
  let result := translate store dflt pluralKey locale allParams
  if startsWithLBrack result && !(pform == "other") then
    translate store dflt (key ++ ".other") locale allParams
  else result

/-! Registry model (`src/echoes-be/registry.py`). -/

/-- A flat per-locale translation dict, as in the registry's
`Dict[str, str]`. -/
abbrev Flat := List (String × String)

/-- A module's `translations`: locale code to flat dict. -/
abbrev LocaleMap := List (String × Flat)

/-- Models `ModuleTranslation` (the in-memory part; `translations_path`
belongs to the out-of-scope filesystem loader). -/
structure ModuleT where
  name : String
  translations : LocaleMap
deriving DecidableEq

/-- Models `module.translations.get(locale, {})`: the flat dict a module
contributes for a locale. -/
def tFor (m : ModuleT) (locale : String) : Flat :=
  (alookup locale m.translations).getD []

/-- One iteration of the outer loop of `_rebuild_cache`: merge one module's
locales into the accumulating merged cache
(`merged.setdefault(locale, {}).update(translations)`). -/
def stepModule (acc : LocaleMap) (m : ModuleT) : LocaleMap :=
  m.translations.foldl
    (fun acc2 p => dset acc2 p.1 (dUpdate ((alookup p.1 acc2).getD []) p.2)) acc

/-- Models `TranslationRegistry._rebuild_cache`: clear the merged cache and
fold the modules in registration order. -/
def rebuildCache (modules : List ModuleT) : LocaleMap :=
  modules.foldl stepModule []

/-- State of `TranslationRegistry`: insertion-ordered module dict, merged
cache, dirty flag. -/
structure Reg where
  modules : List ModuleT
  merged : LocaleMap
  dirty : Bool
deriving DecidableEq

/-- Models `TranslationRegistry.__init__`: no modules, empty cache, dirty. -/
def emptyReg : Reg := ⟨[], [], true⟩

/-- Models `TranslationRegistry.register_translations`: create the module at
the end of the dict on first registration, then merge the given pairs into
its per-locale dict; mark the cache dirty. -/
def regTrans (r : Reg) (name locale : String) (ts : Flat) : Reg :=
  let mods :=
    if r.modules.any (fun m => m.name == name) then r.modules
    else r.modules ++ [⟨name, []⟩]
  let mods2 := mods.map (fun m =>
    if m.name == name then
      ⟨m.name, dset m.translations locale (dUpdate ((alookup locale m.translations).getD []) ts)⟩
    else m)
  ⟨mods2, r.merged, true⟩

/-- The `if self._dirty: self._rebuild_cache()` step shared by the query
operations. -/
def refreshReg (r : Reg) : Reg :=
  if r.dirty then ⟨r.modules, rebuildCache r.modules, false⟩ else r

/-- Models `TranslationRegistry.get_translations` (value view). -/
def regGetTranslations (r : Reg) (locale : String) : Flat :=
  (alookup locale (refreshReg r).merged).getD []

/-- The merged cache is a derived view: whenever the dirty flag is clear,
the cache equals the rebuild of the current modules. Every state reachable
through the registry API satisfies this. -/
def RegWF (r : Reg) : Prop :=
  r.dirty = false → r.merged = rebuildCache r.modules

/-- Python dicts have unique keys; the association lists standing for a
module's `translations` dict and its per-locale dicts must respect that. -/
def ModWF (m : ModuleT) : Prop :=
  (m.translations.map Prod.fst).Nodup ∧ ∀ p ∈ m.translations, (p.2.map Prod.fst).Nodup

instance (r : Reg) : Decidable (RegWF r) := by
  unfold RegWF; infer_instance

instance (m : ModuleT) : Decidable (ModWF m) := by
  unfold ModWF; infer_instance

/-- The value that the fold of `_rebuild_cache` assigns to `(locale, key)`:
the last registered module defining the key wins. -/
def mlStep (locale key : String) (a : Option String) (m : ModuleT) : Option String :=
  match alookup key (tFor m locale) with
  | some v => some v
  | none => a

/-! Merged-cache aliasing model for `get_all_translations`.

The method returns `self._merged_translations.copy()` — a shallow
`dict.copy()`: the top-level dict is fresh, while the per-locale inner dicts
are the very same objects. To express this, the merged cache is modelled
with an explicit heap: the top-level dict maps locales to references, the
heap maps references to inner dicts. -/

/-- The merged-translations cache of a registry whose dirty flag is clear,
with inner dicts held by reference. -/
structure MergedCache where
  top : List (String × Nat)
  heap : Nat → List (String × String)

/-- Models `get_all_translations` (line 149,
`return self._merged_translations.copy()`): the returned top-level dict is
a fresh list-value, but it carries the same inner-dict references as the
store. -/
def getAllTranslations (c : MergedCache) : List (String × Nat) :=
  c.top

/-- Models `get_translations` reading through the heap
(`self._merged_translations.get(locale, {})`). -/
def getTranslationsOf (c : MergedCache) (locale : String) : List (String × String) :=
  match alookup locale c.top with
  | some r => c.heap r
  | none => []

/-- A caller-side in-place mutation of the inner dict at reference `r`
(e.g. `returned[locale][k] = v`): only the heap cell changes, the store's
top-level dict is untouched. -/
def mutateInner (c : MergedCache) (r : Nat)
    (f : List (String × String) → List (String × String)) : MergedCache :=
  ⟨c.top, fun n => if n = r then f (c.heap n) else c.heap n⟩

/-- Modelled from the spec: "descend into the nested tree one segment at a
time; every intermediate value must be a mapping containing the next
segment; the terminal value must be a string". Spec-side characterization
of dot-path lookup, compared with `getNestedValue` in claim C7. -/
def PathOk : Json → List String → String → Prop
  | d, [], v => d = Json.str v
  | d, seg :: rest, v => ∃ fs w, d = Json.obj fs ∧ alookup seg fs = some w ∧ PathOk w rest v

/-! Concrete inputs used by counterexamples and witnesses. -/

/-- French store: `item.one` and `item.other` present, no `item.zero`. -/
def frStore : Store :=
  [("fr", Json.obj [("item", Json.obj [("one", Json.str "un objet"),
      ("other", Json.str "des objets")])]),
   ("en", Json.obj [])]

/-- English store with a `{count}` placeholder in both plural entries. -/
def cntStore : Store :=
  [("en", Json.obj [("item", Json.obj [("one", Json.str "{count} item"),
      ("other", Json.str "{count} items")])])]

/-- English store whose `msg.one` leaf is a genuine string starting with
`"["`. -/
def brStore : Store :=
  [("en", Json.obj [("msg", Json.obj [("one", Json.str "[odd"),
      ("other", Json.str "many things")])])]

/-- English store with only an `.other` plural entry. -/
def otherOnlyStore : Store :=
  [("en", Json.obj [("msg", Json.obj [("other", Json.str "N items")])])]

/-- A clean merged cache holding one locale whose inner dict lives at
reference `0`. -/
def sharedCache : MergedCache :=
  ⟨[("en", 0)], fun n => if n = 0 then [("k", "old")] else []⟩

/-- Registry state after registering module "modA" and then module "modB",
both defining key "k" for locale "en". -/
def twoModReg : Reg :=
  regTrans (regTrans emptyReg "modA" "en" [("k", "va")]) "modB" "en" [("k", "vb")]

/-! Helper lemmas. -/

theorem alookup_append {α : Type} (k : String) (a b : List (String × α)) :
    alookup k (a ++ b) =
      match alookup k a with
      | some v => some v
      | none => alookup k b := by
  induction a with
  | nil => simp [alookup]
  | cons p t ih =>
    obtain ⟨k0, v0⟩ := p
    by_cases h : k0 = k <;> simp [alookup, h, ih]

theorem strData_append (a b : String) : (a ++ b).data = a.data ++ b.data := by
  cases a; cases b; rfl

theorem translate_of_resolve_none (store : Store) (dflt key locale : String)
    (params : Params) (h : resolveValue store dflt locale key = none) :
    translate store dflt key locale params = "[" ++ key ++ "]" := by
  simp [translate, h]

theorem translate_of_resolve_some (store : Store) (dflt key locale : String)
    (params : Params) (v : String) (h : resolveValue store dflt locale key = some v) :
    translate store dflt key locale params =
      if params.isEmpty then v else interpolate v params := by
  simp [translate, h]

theorem startsLBrack_marker (key : String) :
    startsWithLBrack ("[" ++ key ++ "]") = true := by
  simp [startsWithLBrack, strData_append, headIsLBrack]

theorem mkAllParams_not_empty (count : Int) (params : Params) :
    (mkAllParams count params).isEmpty = false := by
  cases params <;> simp [mkAllParams]

theorem interp_keeps_lbrack (params : Params) (v : String)
    (h : startsWithLBrack v = true) :
    startsWithLBrack (interpolate v params) = true := by
  unfold startsWithLBrack at h
  show headIsLBrack (interpStep params none v.data) = true
  cases hd : v.data with
  | nil => rw [hd] at h; simp [headIsLBrack] at h
  | cons c cs =>
    rw [hd] at h
    have hc : c = '[' := by simpa [headIsLBrack] using h
    subst hc
    simp [interpStep, headIsLBrack]

theorem interpStep_congr (p1 p2 : Params)
    (hp : ∀ n, pyGet p1 n = pyGet p2 n) :
    ∀ (l : List Char) (st : Option (List Char)),
      interpStep p1 st l = interpStep p2 st l := by
  intro l
  induction l with
  | nil => intro st; cases st <;> rfl
  | cons c cs ih =>
    intro st
    cases st with
    | none =>
      by_cases h : c = '{' <;> simp [interpStep, h, ih]
    | some nm =>
      by_cases h1 : c = '}'
      · by_cases h2 : nm = []
        · simp [interpStep, h1, h2, ih]
        · simp only [interpStep, if_pos h1, if_neg h2]
          rw [hp (String.mk nm.reverse)]
          cases pyGet p2 (String.mk nm.reverse) <;> simp [ih]
      · by_cases h2 : isWordChar c
        · simp [interpStep, h1, h2, ih]
        · by_cases h3 : c = '{' <;> simp [interpStep, h1, h2, h3, ih]

theorem alookup_filter_ne {α : Type} (k name : String) (h : k ≠ name)
    (d : List (String × α)) :
    alookup k (d.filter (fun p => p.1 != name)) = alookup k d := by
  induction d with
  | nil => rfl
  | cons p t ih =>
    obtain ⟨k0, v0⟩ := p
    by_cases h0 : k0 = name
    · subst h0
      simp [List.filter_cons, bne_self_eq_false, alookup, Ne.symm h, ih]
    · have hb : (k0 != name) = true := bne_iff_ne.mpr h0
      by_cases hk : k0 = k <;> simp [List.filter_cons, hb, alookup, hk, ih, h]

theorem alookup_filter_self {α : Type} (name : String) (d : List (String × α)) :
    alookup name (d.filter (fun p => p.1 != name)) = none := by
  induction d with
  | nil => rfl
  | cons p t ih =>
    obtain ⟨k0, v0⟩ := p
    by_cases h0 : k0 = name <;> simp [alookup, h0, ih]

theorem alookup_dset_self {α : Type} (d : List (String × α)) (k : String) (v : α) :
    alookup k (dset d k v) = some v := by
  induction d with
  | nil => simp [dset, alookup]
  | cons p t ih =>
    obtain ⟨k0, v0⟩ := p
    by_cases h : k0 = k <;> simp [dset, alookup, h, ih]

theorem alookup_dset_ne {α : Type} (d : List (String × α)) (k k1 : String) (v : α)
    (h : k1 ≠ k) : alookup k1 (dset d k v) = alookup k1 d := by
  induction d with
  | nil => simp [dset, alookup, Ne.symm h]
  | cons p t ih =>
    obtain ⟨k0, v0⟩ := p
    by_cases h0 : k0 = k
    · subst h0
      simp [dset, alookup, Ne.symm h]
    · by_cases h1 : k0 = k1 <;> simp [dset, alookup, h0, h1, ih, h]

theorem alookup_eq_none_of_not_mem {α : Type} (d : List (String × α)) (k : String)
    (h : k ∉ d.map Prod.fst) : alookup k d = none := by
  induction d with
  | nil => rfl
  | cons p t ih =>
    obtain ⟨k0, v0⟩ := p
    simp only [List.map_cons, List.mem_cons] at h
    push_neg at h
    simp [alookup, Ne.symm h.1, ih h.2]

theorem alookup_dUpdate {α : Type} (cur : List (String × α)) (ts : List (String × α))
    (hts : (ts.map Prod.fst).Nodup) (k : String) :
    alookup k (dUpdate cur ts) =
      match alookup k ts with
      | some v => some v
      | none => alookup k cur := by
  induction ts generalizing cur with
  | nil => simp [dUpdate, alookup]
  | cons p t ih =>
    obtain ⟨k0, v0⟩ := p
    simp only [List.map_cons, List.nodup_cons] at hts
    have step : dUpdate cur ((k0, v0) :: t) = dUpdate (dset cur k0 v0) t := rfl
    rw [step, ih _ hts.2]
    by_cases h : k0 = k
    · subst h
      have hnone : alookup k0 t = none :=
        alookup_eq_none_of_not_mem t k0 hts.1
      simp [alookup, hnone, alookup_dset_self]
    · simp [alookup, h, alookup_dset_ne cur k0 k v0 (Ne.symm h)]

theorem stepFold_lookup (locale key : String) :
    ∀ (lts : List (String × Flat)) (acc : LocaleMap),
      (lts.map Prod.fst).Nodup →
      (∀ p ∈ lts, (p.2.map Prod.fst).Nodup) →
      alookup key ((alookup locale
          (lts.foldl (fun acc2 p =>
            dset acc2 p.1 (dUpdate ((alookup p.1 acc2).getD []) p.2)) acc)).getD []) =
        match alookup key ((alookup locale lts).getD []) with
        | some v => some v
        | none => alookup key ((alookup locale acc).getD []) := by
  intro lts
  induction lts with
  | nil => intro acc _ _; simp [alookup]
  | cons p t ih =>
    intro acc hnd hflats
    obtain ⟨l, f⟩ := p
    simp only [List.map_cons, List.nodup_cons] at hnd
    have hf : (f.map Prod.fst).Nodup := hflats (l, f) (List.mem_cons_self _ _)
    have hflats2 : ∀ q ∈ t, (q.2.map Prod.fst).Nodup :=
      fun q hq => hflats q (List.mem_cons_of_mem _ hq)
    have step : ((l, f) :: t).foldl (fun acc2 p =>
        dset acc2 p.1 (dUpdate ((alookup p.1 acc2).getD []) p.2)) acc =
      t.foldl (fun acc2 p =>
        dset acc2 p.1 (dUpdate ((alookup p.1 acc2).getD []) p.2))
        (dset acc l (dUpdate ((alookup l acc).getD []) f)) := rfl
    rw [step, ih _ hnd.2 hflats2]
    by_cases hl : l = locale
    · subst hl
      have hnone : alookup l t = none := alookup_eq_none_of_not_mem t l hnd.1
      have e1 : alookup l ((l, f) :: t) = some f := by simp [alookup]
      rw [hnone, e1]
      simp only [Option.getD_none, Option.getD_some, alookup]
      rw [alookup_dset_self, Option.getD_some, alookup_dUpdate _ _ hf key]
      cases alookup key f <;> rfl
    · have hset : alookup locale (dset acc l (dUpdate ((alookup l acc).getD []) f))
          = alookup locale acc :=
        alookup_dset_ne _ _ _ _ (Ne.symm hl)
      have e2 : alookup locale ((l, f) :: t) = alookup locale t := by
        simp [alookup, hl]
      rw [hset, e2]

theorem rebuildFold_lookup (locale key : String) :
    ∀ (mods : List ModuleT) (acc : LocaleMap),
      (∀ m ∈ mods, ModWF m) →
      alookup key ((alookup locale (mods.foldl stepModule acc)).getD []) =
        mods.foldl (mlStep locale key)
          (alookup key ((alookup locale acc).getD [])) := by
  intro mods
  induction mods with
  | nil => intro acc _; rfl
  | cons m t ih =>
    intro acc hwf
    have hm : ModWF m := hwf m (List.mem_cons_self _ _)
    have ht : ∀ m2 ∈ t, ModWF m2 := fun m2 h2 => hwf m2 (List.mem_cons_of_mem _ h2)
    have step : (m :: t).foldl stepModule acc = t.foldl stepModule (stepModule acc m) := rfl
    rw [step, ih _ ht]
    have hinner : alookup key ((alookup locale (stepModule acc m)).getD []) =
        mlStep locale key (alookup key ((alookup locale acc).getD [])) m := by
      unfold stepModule mlStep tFor
      rw [stepFold_lookup locale key m.translations acc hm.1 hm.2]
    rw [hinner]
    exact (List.foldl_cons _ _).symm

theorem foldl_mlStep_last (locale key : String) (post : List ModuleT)
    (hpost : ∀ m ∈ post, alookup key (tFor m locale) = none) :
    ∀ (a : Option String), post.foldl (mlStep locale key) a = a := by
  induction post with
  | nil => intro a; rfl
  | cons m t ih =>
    intro a
    have hm : alookup key (tFor m locale) = none := hpost m (List.mem_cons_self _ _)
    have ht : ∀ m2 ∈ t, alookup key (tFor m2 locale) = none :=
      fun m2 h2 => hpost m2 (List.mem_cons_of_mem _ h2)
    have hstep : mlStep locale key a m = a := by unfold mlStep; rw [hm]
    calc (m :: t).foldl (mlStep locale key) a
        = t.foldl (mlStep locale key) (mlStep locale key a m) := rfl
      _ = t.foldl (mlStep locale key) a := by rw [hstep]
      _ = a := ih ht a

theorem regWF_empty : RegWF emptyReg := by intro h; cases h

theorem regWF_regTrans (r : Reg) (name locale : String) (ts : Flat) :
    RegWF (regTrans r name locale ts) := by
  intro h
  simp [regTrans] at h

theorem regWF_refresh (r : Reg) (h : RegWF r) : RegWF (refreshReg r) := by
  intro h2
  unfold refreshReg at *
  cases hd : r.dirty with
  | true => simp [hd]
  | false =>
    simp [hd] at h2 ⊢
    exact h hd

theorem strLeaf_loop_pathOk : ∀ (segs : List String) (d : Json) (v : String),
    strLeaf (getNestedLoop d segs) = some v ↔ PathOk d segs v := by
  intro segs
  induction segs with
  | nil =>
    intro d v
    cases d <;> simp [getNestedLoop, strLeaf, PathOk]
  | cons seg rest ih =>
    intro d v
    cases d with
    | obj fs =>
      simp only [getNestedLoop]
      cases h : alookup seg fs with
      | some w =>
        simp only [PathOk]
        rw [ih w v]
        constructor
        · intro hp
          exact ⟨fs, w, rfl, h, hp⟩
        · rintro ⟨fs2, w2, heq, hl, hp⟩
          cases heq
          rw [h] at hl
          cases hl
          exact hp
      | none =>
        simp only [strLeaf, PathOk]
        constructor
        · intro hp; cases hp
        · rintro ⟨fs2, w2, heq, hl, hp⟩
          cases heq
          rw [h] at hl
          cases hl
    | str s => simp [getNestedLoop, strLeaf, PathOk]
    | num n => simp [getNestedLoop, strLeaf, PathOk]
    | arr elems => simp [getNestedLoop, strLeaf, PathOk]
    | null => simp [getNestedLoop, strLeaf, PathOk]

/-! Claim theorems. -/

/-- C1: the claim states that for locale "fr" `translate_plural` selects
plural form "one" for count=0 and count=1 (so both use the `.one` key) and
"other" for count>=2, the French branch being evaluated before the generic
`count == 0` rule. In the code the generic zero rule runs first, so count=0
yields form "zero": the lookup uses the `.zero` key and, on a miss, retries
`.other` — it never uses `.one` for count=0. This theorem evaluates the code
at the failing input (count=0, locale "fr"): the form is "zero", and on a
French table with only `item.one`/`item.other` the result is the `.other`
value, not the `.one` value demanded by the claim. The claim matches the
code's own comment ("French: 0 and 1 are singular") and its dead
`count in (0, 1)` test, so the code, not the claim, is in error. -/
theorem c1_fr_zero_uses_generic_rule :
    getPluralForm 0 "fr" = "zero" ∧
    getPluralForm 1 "fr" = "one" ∧
    getPluralForm 2 "fr" = "other" ∧
    translate_plural frStore "en" "item" 0 "fr" [] = "des objets" ∧
    "des objets" ≠ "un objet" := by
  refine ⟨rfl, rfl, rfl, rfl, by decide⟩

/-- C2 counterexample: the claim states that the injected count always takes
precedence over a "count" entry in `params`. At key "item", count=2, locale
"en", params `{"count": "99"}`, the template "{count} items" interpolates to
"99 items" — the params entry won, not the count argument (which would give
"2 items"). -/
theorem c2_params_count_wins_cex :
    translate_plural cntStore "en" "item" 2 "en" [("count", some "99")] = "99 items" ∧
    "99 items" ≠ "2 items" := by
  refine ⟨rfl, by decide⟩

/-- C2 amended: in the parameter set `translate_plural` passes to
interpolation, a "count" entry supplied in `params` takes precedence over
the injected count; the injected count is used only when `params` has no
"count" entry (`{"count": count, **params}` lets the spread overwrite the
injected entry). -/
theorem c2_amended_count_precedence (count : Int) (params : Params) :
    alookup "count" (mkAllParams count params) =
      some ((alookup "count" params).getD (some (intStr count))) := by
  unfold mkAllParams
  rw [alookup_append]
  cases h : alookup "count" params <;> simp [alookup]

/-- C3 counterexample: the claim states that mutating the mapping returned
by `get_all_translations`, including its nested per-locale trees, leaves
the store unchanged. On a cache whose "en" tree is `{"k": "old"}` at
reference 0, mutating that inner dict through the reference exposed by the
returned copy makes a subsequent `get_translations("en")` return the
mutated `{"k": "new"}`, not the original values. -/
theorem c3_shallow_copy_cex :
    alookup "en" (getAllTranslations sharedCache) = some 0 ∧
    getTranslationsOf sharedCache "en" = [("k", "old")] ∧
    getTranslationsOf (mutateInner sharedCache 0 (fun d => dset d "k" "new")) "en"
      = [("k", "new")] ∧
    ([("k", "new")] : List (String × String)) ≠ [("k", "old")] := by
  refine ⟨rfl, rfl, rfl, by decide⟩

/-- C3 amended: `get_all_translations` returns a shallow copy
(`dict.copy()`): only the top-level mapping is fresh; the per-locale trees
are shared with the store, so mutating a nested tree through the returned
mapping is visible in a subsequent `get_translations` for that locale. -/
theorem c3_amended_shared_subtrees (c : MergedCache) (locale : String) (r : Nat)
    (f : List (String × String) → List (String × String))
    (h : alookup locale (getAllTranslations c) = some r) :
    getTranslationsOf (mutateInner c r f) locale = f (c.heap r) := by
  unfold getAllTranslations at h
  simp [getTranslationsOf, mutateInner, h]

/-- C3 witness: the amended theorem applied to the concrete shared cache. -/
theorem c3_amended_witness :
    alookup "en" (getAllTranslations sharedCache) = some 0 ∧
    getTranslationsOf (mutateInner sharedCache 0 (fun d => dset d "k" "new")) "en"
      = dset (sharedCache.heap 0) "k" "new" :=
  ⟨rfl, c3_amended_shared_subtrees sharedCache "en" 0 (fun d => dset d "k" "new") rfl⟩

/-- C4: for every key that resolves to no string leaf in either the
requested locale's table or the default locale's table, `translate` returns
exactly the string "[" ++ key ++ "]" — an ordinary return value of the
total function; no exception path exists. -/
theorem c4_missing_key_marker (store : Store) (dflt key locale : String) (params : Params)
    (h1 : getNestedValue (treeOf store locale) key = none)
    (h2 : getNestedValue (treeOf store dflt) key = none) :
    translate store dflt key locale params = "[" ++ key ++ "]" := by
  apply translate_of_resolve_none
  simp [resolveValue, h1, h2]

/-- C4 witness: the empty store misses key "a.b" and the marker is
returned. -/
theorem c4_witness :
    getNestedValue (treeOf ([] : Store) "en") "a.b" = none ∧
    translate [] "en" "a.b" "en" [] = "[a.b]" :=
  ⟨rfl, c4_missing_key_marker [] "en" "a.b" "en" [] rfl rfl⟩

/-- C5: for sources A registered before B that both define the same key for
the same locale (and no later source defines it), the merged table's value
for that key equals B's value — merge order equals registration order, the
last registration wins — in every well-formed registry state, hence after
any number of invalidations and rebuilds (`regWF_empty`, `regWF_regTrans`
and `regWF_refresh` show every reachable state is well-formed). -/
theorem c5_last_registered_wins (r : Reg) (pre mid post : List ModuleT)
    (A B : ModuleT) (locale key vA vB : String)
    (hwf : RegWF r)
    (hmods : r.modules = pre ++ A :: (mid ++ B :: post))
    (hdicts : ∀ m ∈ r.modules, ModWF m)
    (_hA : alookup key (tFor A locale) = some vA)
    (hB : alookup key (tFor B locale) = some vB)
    (hpost : ∀ m ∈ post, alookup key (tFor m locale) = none) :
    alookup key (regGetTranslations r locale) = some vB := by
  have hmerged : (refreshReg r).merged = rebuildCache r.modules := by
    unfold refreshReg
    cases hd : r.dirty with
    | true => simp
    | false => simp [hwf hd]
  unfold regGetTranslations
  rw [hmerged]
  unfold rebuildCache
  rw [rebuildFold_lookup locale key r.modules [] hdicts]
  rw [hmods]
  rw [List.foldl_append, List.foldl_cons, List.foldl_append, List.foldl_cons]
  rw [show mlStep locale key (List.foldl (mlStep locale key)
    (mlStep locale key (List.foldl (mlStep locale key)
      (alookup key ((alookup locale ([] : LocaleMap)).getD [])) pre) A) mid) B = some vB by
    unfold mlStep; rw [hB]]
  exact foldl_mlStep_last locale key post hpost (some vB)

/-- C5 witness: register "modA" then "modB", both defining "k" for "en";
the merged table yields modB's value. -/
theorem c5_witness :
    RegWF twoModReg ∧
    alookup "k" (regGetTranslations twoModReg "en") = some "vb" :=
  ⟨by decide,
   c5_last_registered_wins twoModReg [] [] []
     ⟨"modA", [("en", [("k", "va")])]⟩ ⟨"modB", [("en", [("k", "vb")])]⟩
     "en" "k" "va" "vb" (by decide) (by decide) (by decide) (by decide) (by decide)
     (by decide)⟩

/-- C6 counterexample: the claim states that a missing-translation marker
whose key contains a placeholder-shaped segment is interpolated before
being returned. On the empty store, key "say{name}now" with params
`{"name": "X"}` returns the marker verbatim, "[say{name}now]", because
`translate` returns the marker before the interpolation step; the claim
predicted "[sayXnow]". -/
theorem c6_marker_not_interpolated_cex :
    translate [] "en" "say{name}now" "en" [("name", some "X")] = "[say{name}now]" ∧
    "[say{name}now]" ≠ "[sayXnow]" := by
  refine ⟨rfl, by decide⟩

/-- C6 amended: the missing-translation marker is returned verbatim, with
no interpolation applied to it, whatever `params` holds; interpolation is
attempted only on a found translation (and only when `params` is
non-empty). -/
theorem c6_amended_marker_verbatim (store : Store) (dflt key locale : String)
    (params : Params) (v : String) :
    (resolveValue store dflt locale key = none →
      translate store dflt key locale params = "[" ++ key ++ "]") ∧
    (resolveValue store dflt locale key = some v → params ≠ [] →
      translate store dflt key locale params = interpolate v params) := by
  constructor
  · intro h; exact translate_of_resolve_none store dflt key locale params h
  · intro h hp
    rw [translate_of_resolve_some store dflt key locale params v h]
    cases params with
    | nil => exact absurd rfl hp
    | cons p t => simp [List.isEmpty]

/-- C6 witness: the amended theorem applied to the empty store with
non-empty params. -/
theorem c6_amended_witness :
    resolveValue ([] : Store) "en" "en" "k" = none ∧
    translate [] "en" "k" "en" [("name", some "X")] = "[k]" :=
  ⟨rfl, (c6_amended_marker_verbatim [] "en" "k" "en" [("name", some "X")] "").1 rfl⟩

/-- C7: dot-path lookup returns a terminal value exactly when every
intermediate value along the split key is a mapping containing the next
segment and the terminal value is a string; every other shape (missing
segment, non-mapping intermediate, non-string terminal) returns nothing —
never an error, `getNestedValue` being total. -/
theorem c7_dot_path_characterization (data : Json) (key : String) (v : String) :
    getNestedValue data key = some v ↔ PathOk data (splitOnDot key) v := by
  unfold getNestedValue
  exact strLeaf_loop_pathOk (splitOnDot key) data v

/-- C7 witness: the characterization applied at a concrete tree and key. -/
theorem c7_witness :
    PathOk (Json.obj [("a", Json.obj [("b", Json.str "X")])]) (splitOnDot "a.b") "X" :=
  (c7_dot_path_characterization (Json.obj [("a", Json.obj [("b", Json.str "X")])])
    "a.b" "X").mp rfl

/-- C8: for locale "en" with count=0, when neither table has a string leaf
at key.zero but the requested locale's table has one at key.other,
`translate_plural` selects form "zero", misses, retries with key.other, and
returns that entry's interpolated value rather than a missing marker. -/
theorem c8_en_zero_retries_other (store : Store) (dflt key : String) (params : Params)
    (v : String)
    (h1 : getNestedValue (treeOf store "en") (key ++ ".zero") = none)
    (h2 : getNestedValue (treeOf store dflt) (key ++ ".zero") = none)
    (h3 : getNestedValue (treeOf store "en") (key ++ ".other") = some v)
    (_h4 : startsWithLBrack v = false) :
    translate_plural store dflt key 0 "en" params = interpolate v (mkAllParams 0 params) := by
  have hform : getPluralForm 0 "en" = "zero" := rfl
  have hdot : ("." : String) ++ "zero" = ".zero" := by decide
  have hk : key ++ (("." : String) ++ "zero") = key ++ ".zero" := by rw [hdot]
  have hres : resolveValue store dflt "en" (key ++ ".zero") = none := by
    simp [resolveValue, h1, h2]
  have hres2 : resolveValue store dflt "en" (key ++ ".other") = some v := by
    simp [resolveValue, h3]
  simp only [translate_plural, hform, hk]
  rw [translate_of_resolve_none _ _ _ _ _ hres, startsLBrack_marker]
  rw [translate_of_resolve_some _ _ _ _ _ _ hres2, mkAllParams_not_empty]
  simp

/-- C8 witness: a store with only `msg.other` at count 0 yields the
`.other` entry. -/
theorem c8_witness :
    getNestedValue (treeOf otherOnlyStore "en") ("msg" ++ ".zero") = none ∧
    getNestedValue (treeOf otherOnlyStore "en") ("msg" ++ ".other") = some "N items" ∧
    translate_plural otherOnlyStore "en" "msg" 0 "en" [] =
      interpolate "N items" (mkAllParams 0 []) :=
  ⟨rfl, rfl,
    c8_en_zero_retries_other otherOnlyStore "en" "msg" [] "N items" rfl rfl rfl rfl⟩

/-- C9: the retry is triggered by the returned string merely starting with
"[": whenever the resolved plural translation is a genuine string leaf
beginning with "[" and the selected form is not "other", that found
translation is discarded and the result of translating key.other (with the
same injected parameters, possibly a missing marker) is returned instead. -/
theorem c9_retry_on_bracket_leaf (store : Store) (dflt key : String) (count : Int)
    (locale : String) (params : Params) (v : String)
    (hres : resolveValue store dflt locale (key ++ ("." ++ getPluralForm count locale))
      = some v)
    (hbr : startsWithLBrack v = true)
    (hform : getPluralForm count locale ≠ "other") :
    translate_plural store dflt key count locale params =
      translate store dflt (key ++ ".other") locale (mkAllParams count params) := by
  have hbeq : (getPluralForm count locale == "other") = false :=
    beq_eq_false_iff_ne.mpr hform
  simp only [translate_plural]
  rw [translate_of_resolve_some _ _ _ _ _ _ hres, mkAllParams_not_empty]
  simp only [if_false, Bool.false_eq_true, ite_false]
  rw [interp_keeps_lbrack _ _ hbr, hbeq]
  simp

/-- C9 witness: a genuine leaf "[odd" at `msg.one` is discarded at count 1
in favour of translating `msg.other`. -/
theorem c9_witness :
    resolveValue brStore "en" "en" ("msg" ++ ("." ++ getPluralForm 1 "en")) = some "[odd" ∧
    startsWithLBrack "[odd" = true ∧
    translate_plural brStore "en" "msg" 1 "en" [] =
      translate brStore "en" ("msg" ++ ".other") "en" (mkAllParams 1 []) :=
  ⟨rfl, rfl,
    c9_retry_on_bracket_leaf brStore "en" "msg" 1 "en" [] "[odd" rfl rfl (by decide)⟩

/-- C10: a parameter present with value None behaves exactly like an absent
parameter: interpolation of any template yields the same string whether the
None-valued binding is present or erased — in particular its placeholder is
left verbatim, braces included, since `params.get(name)` conflates the two
cases. -/
theorem c10_none_param_like_absent (template : String) (params : Params) (name : String)
    (h : alookup name params = some none) :
    interpolate template params = interpolate template (eraseParam name params) := by
  unfold interpolate
  congr 1
  apply interpStep_congr
  intro n
  by_cases hn : n = name
  · subst hn
    unfold pyGet eraseParam
    rw [h, alookup_filter_self]
  · unfold pyGet eraseParam
    rw [alookup_filter_ne n name hn]

/-- C10 witness: a None-valued "x" leaves "Hi {x}" untouched, exactly as
with no parameters at all. -/
theorem c10_witness :
    alookup "x" ([("x", (none : Option String))]) = some none ∧
    interpolate "Hi {x}" [("x", none)] = interpolate "Hi {x}" (eraseParam "x" [("x", none)]) ∧
    interpolate "Hi {x}" [("x", none)] = "Hi {x}" :=
  ⟨rfl, c10_none_param_like_absent "Hi {x}" [("x", none)] "x" rfl, rfl⟩

end Echoes
